import Mathlib

/- Verification of the jp_segment linguistic pipeline: a shallow embedding of
the Python sources (jmdict_loader.py, deconjugator.py, parser_port.py,
_analyzer.py) in Lean 4.  Python strings are modelled as lists of Unicode
code points (`Str := List Nat`), so `ord`/`chr` arithmetic from the source
appears literally. -/

namespace JpSegment

/- A Python string as its sequence of code points. -/
abbrev Str := List Nat

/- Convenience for writing `Str` literals from Lean string literals. -/
def lit (s : String) : Str := s.toList.map Char.toNat

/- ============================================================ -/
/- KanaMap: width folding (jmdict_loader._to_fullwidth_ascii /
   _to_halfwidth_ascii, lines 396-424).  Constants as in the source. -/

def ASCII_DIGIT_START : Nat := 0x30
def ASCII_DIGIT_END : Nat := 0x39
def ASCII_UPPER_START : Nat := 0x41
def ASCII_UPPER_END : Nat := 0x5A
def ASCII_LOWER_START : Nat := 0x61
def ASCII_LOWER_END : Nat := 0x7A
def FULLWIDTH_DIGIT_START : Nat := 0xFF10
def FULLWIDTH_DIGIT_END : Nat := 0xFF19
def FULLWIDTH_UPPER_START : Nat := 0xFF21
def FULLWIDTH_UPPER_END : Nat := 0xFF3A
def FULLWIDTH_LOWER_START : Nat := 0xFF41
def FULLWIDTH_LOWER_END : Nat := 0xFF5A
def KATAKANA_SMALL_START : Nat := 0x30A1
def KATAKANA_SMALL_END : Nat := 0x30F6
def PROLONGED_SOUND_MARK : Nat := 0x30FC

/- Per-character body of `_to_fullwidth_ascii`. -/
def toFullwidthChar (o : Nat) : Nat :=
  if ASCII_DIGIT_START ≤ o ∧ o ≤ ASCII_DIGIT_END then
    FULLWIDTH_DIGIT_START + (o - ASCII_DIGIT_START)
  else if ASCII_UPPER_START ≤ o ∧ o ≤ ASCII_UPPER_END then
    FULLWIDTH_UPPER_START + (o - ASCII_UPPER_START)
  else if ASCII_LOWER_START ≤ o ∧ o ≤ ASCII_LOWER_END then
    FULLWIDTH_LOWER_START + (o - ASCII_LOWER_START)
  else o

/- Per-character body of `_to_halfwidth_ascii`. -/
def toHalfwidthChar (o : Nat) : Nat :=
  if FULLWIDTH_DIGIT_START ≤ o ∧ o ≤ FULLWIDTH_DIGIT_END then
    ASCII_DIGIT_START + (o - FULLWIDTH_DIGIT_START)
  else if FULLWIDTH_UPPER_START ≤ o ∧ o ≤ FULLWIDTH_UPPER_END then
    ASCII_UPPER_START + (o - FULLWIDTH_UPPER_START)
  else if FULLWIDTH_LOWER_START ≤ o ∧ o ≤ FULLWIDTH_LOWER_END then
    ASCII_LOWER_START + (o - FULLWIDTH_LOWER_START)
  else o

/- `_to_fullwidth_ascii` (jmdict_loader.py lines 396-409). -/
def to_fullwidth_ascii (s : Str) : Str := s.map toFullwidthChar

/- `_to_halfwidth_ascii` (jmdict_loader.py lines 412-424). -/
def to_halfwidth_ascii (s : Str) : Str := s.map toHalfwidthChar

/- A code point that is an ASCII letter or digit. -/
def isAsciiAlnum (o : Nat) : Prop :=
  (ASCII_DIGIT_START ≤ o ∧ o ≤ ASCII_DIGIT_END) ∨
  (ASCII_UPPER_START ≤ o ∧ o ≤ ASCII_UPPER_END) ∨
  (ASCII_LOWER_START ≤ o ∧ o ≤ ASCII_LOWER_END)

instance (o : Nat) : Decidable (isAsciiAlnum o) := by unfold isAsciiAlnum; infer_instance

/- A code point that is a fullwidth ASCII letter or digit. -/
def isFullwidthAlnum (o : Nat) : Prop :=
  (FULLWIDTH_DIGIT_START ≤ o ∧ o ≤ FULLWIDTH_DIGIT_END) ∨
  (FULLWIDTH_UPPER_START ≤ o ∧ o ≤ FULLWIDTH_UPPER_END) ∨
  (FULLWIDTH_LOWER_START ≤ o ∧ o ≤ FULLWIDTH_LOWER_END)

instance (o : Nat) : Decidable (isFullwidthAlnum o) := by unfold isFullwidthAlnum; infer_instance

lemma toHalfwidthChar_toFullwidthChar (o : Nat) (h : isAsciiAlnum o) :
    toHalfwidthChar (toFullwidthChar o) = o := by
  rcases h with h | h | h <;>
    simp only [toFullwidthChar, toHalfwidthChar, ASCII_DIGIT_START, ASCII_DIGIT_END,
      ASCII_UPPER_START, ASCII_UPPER_END, ASCII_LOWER_START, ASCII_LOWER_END,
      FULLWIDTH_DIGIT_START, FULLWIDTH_DIGIT_END, FULLWIDTH_UPPER_START, FULLWIDTH_UPPER_END,
      FULLWIDTH_LOWER_START, FULLWIDTH_LOWER_END] at * <;>
    split_ifs <;> omega

lemma toFullwidthChar_toHalfwidthChar (o : Nat) (h : isFullwidthAlnum o) :
    toFullwidthChar (toHalfwidthChar o) = o := by
  rcases h with h | h | h <;>
    simp only [toFullwidthChar, toHalfwidthChar, ASCII_DIGIT_START, ASCII_DIGIT_END,
      ASCII_UPPER_START, ASCII_UPPER_END, ASCII_LOWER_START, ASCII_LOWER_END,
      FULLWIDTH_DIGIT_START, FULLWIDTH_DIGIT_END, FULLWIDTH_UPPER_START, FULLWIDTH_UPPER_END,
      FULLWIDTH_LOWER_START, FULLWIDTH_LOWER_END] at * <;>
    split_ifs <;> omega

/- ============================================================ -/
/- KanaMap: hiragana folding (jmdict_loader._katakana_to_hiragana lines 35-43,
   to_hiragana_preserve_long lines 179-181).  Code points: ゎ = 0x308E,
   ヮ = 0x30EE, わ = 0x308F. -/

/- Per-character body of `_katakana_to_hiragana`: small-katakana code points
   shift down by 0x60. -/
def katakanaToHiraganaChar (c : Nat) : Nat :=
  if KATAKANA_SMALL_START ≤ c ∧ c ≤ KATAKANA_SMALL_END then c - 0x60 else c

/- `_katakana_to_hiragana` (jmdict_loader.py lines 35-43). -/
def katakana_to_hiragana (s : Str) : Str := s.map katakanaToHiraganaChar

/- The two single-character `str.replace` calls of `to_hiragana_preserve_long`:
   ゎ → わ and ヮ → わ. -/
def waNormalizeChar (c : Nat) : Nat :=
  if c = 0x308E ∨ c = 0x30EE then 0x308F else c

/- `to_hiragana_preserve_long` (jmdict_loader.py lines 179-181). -/
def to_hiragana_preserve_long (s : Str) : Str :=
  katakana_to_hiragana (s.map waNormalizeChar)

/- `_expand_long_vowels` (jmdict_loader.py lines 122-137).  The `_HIRA_VOWEL`
   table (lines 46-119) maps each base hiragana mora to its vowel. -/
def hiraVowelTable : List (Nat × Nat) := [
  (0x3042, 0x3042), (0x3044, 0x3044), (0x3046, 0x3046), (0x3048, 0x3048), (0x304A, 0x304A),
  (0x304B, 0x3042), (0x304D, 0x3044), (0x304F, 0x3046), (0x3051, 0x3048), (0x3053, 0x304A),
  (0x3055, 0x3042), (0x3057, 0x3044), (0x3059, 0x3046), (0x305B, 0x3048), (0x305D, 0x304A),
  (0x305F, 0x3042), (0x3061, 0x3044), (0x3064, 0x3046), (0x3066, 0x3048), (0x3068, 0x304A),
  (0x306A, 0x3042), (0x306B, 0x3044), (0x306C, 0x3046), (0x306D, 0x3048), (0x306E, 0x304A),
  (0x306F, 0x3042), (0x3072, 0x3044), (0x3075, 0x3046), (0x3078, 0x3048), (0x307B, 0x304A),
  (0x307E, 0x3042), (0x307F, 0x3044), (0x3080, 0x3046), (0x3081, 0x3048), (0x3082, 0x304A),
  (0x3084, 0x3042), (0x3086, 0x3046), (0x3088, 0x304A),
  (0x3089, 0x3042), (0x308A, 0x3044), (0x308B, 0x3046), (0x308C, 0x3048), (0x308D, 0x304A),
  (0x308F, 0x3042), (0x3090, 0x3044), (0x3091, 0x3048), (0x3092, 0x304A),
  (0x304C, 0x3042), (0x304E, 0x3044), (0x3050, 0x3046), (0x3052, 0x3048), (0x3054, 0x304A),
  (0x3056, 0x3042), (0x3058, 0x3044), (0x305A, 0x3046), (0x305C, 0x3048), (0x305E, 0x304A),
  (0x3060, 0x3042), (0x3062, 0x3044), (0x3065, 0x3046), (0x3067, 0x3048), (0x3069, 0x304A),
  (0x3070, 0x3042), (0x3073, 0x3044), (0x3076, 0x3046), (0x3079, 0x3048), (0x307C, 0x304A),
  (0x3071, 0x3042), (0x3074, 0x3044), (0x3077, 0x3046), (0x307A, 0x3048), (0x307D, 0x304A)]

/- `_HIRA_VOWEL.get(ch)`. -/
def hiraVowel (c : Nat) : Option Nat := hiraVowelTable.lookup c

/- Loop body of `_expand_long_vowels`; `pv = 0` encodes Python's empty
   `prev_vowel`. -/
def expandLongAux : Str → Nat → Str
  | [], _ => []
  | c :: rest, pv =>
    if c = PROLONGED_SOUND_MARK then
      (if pv ≠ 0 then [pv] else []) ++ expandLongAux rest pv
    else
      c :: expandLongAux rest (match hiraVowel c with | some v => v | none => pv)

def expand_long_vowels (s : Str) : Str := expandLongAux s 0

/- `to_hiragana_expand_long` (jmdict_loader.py lines 184-187). -/
def to_hiragana_expand_long (s : Str) : Str :=
  expand_long_vowels (katakana_to_hiragana (s.map waNormalizeChar))

/- ============================================================ -/
/- Tokenizer (parser_port.ParserPort.parse_text_tokens step 4 and
   _words_with_positions, lines 121-144). -/

/- Analyzer part-of-speech enumeration (_types.PartOfSpeech). -/
inductive PartOfSpeech where
  | Unknown | Noun | Verb | IAdjective | Adverb | Particle | Conjunction
  | Auxiliary | Adnominal | Interjection | Symbol | Prefix | Filler | Name
  | Pronoun | NaAdjective | Suffix | CommonNoun | SupplementarySymbol
  | BlankSpace | Expression | NominalAdjective | Numeral | PrenounAdjectival
  | Counter | AdverbTo | NounSuffix
  deriving DecidableEq, Repr

/- Analyzer POS-section enumeration (_types.PartOfSpeechSection). -/
inductive PartOfSpeechSection where
  | None_ | Amount | Alphabet | FullStop | BlankSpace | Suffix | Pronoun
  | Independant | Dependant | Filler | Common | SentenceEndingParticle
  | Counter | ParallelMarker | BindingParticle | PotentialAdverb
  | CaseMarkingParticle | IrregularConjunction | ConjunctionParticle
  | AuxiliaryVerbStem | AdjectivalStem | CompoundWord | Quotation
  | NounConjunction | AdverbialParticle | ConjunctiveParticleClass
  | Adverbialization | AdverbialParticleOrParallelMarkerOrSentenceEndingParticle
  | AdnominalAdjective | ProperNoun | Special | VerbConjunction | PersonName
  | FamilyName | Organization | NotAdjectiveStem | Comma | OpeningBracket
  | ClosingBracket | Region | Country | Numeral | PossibleDependant
  | CommonNoun | SubstantiveAdjective | PossibleCounterWord | PossibleSuru
  | Juntaijoushi | PossibleNaAdjective | VerbLike | PossibleVerbSuruNoun
  | Adjectival | NaAdjectiveLike | Name | Letter | PlaceName | TaruAdjective
  deriving DecidableEq, Repr

/- A `DeckWord` (parser_port.py lines 34-39). -/
structure DeckWord where
  word_id : Int
  original_text : Str
  reading_index : Nat
  parts_of_speech : List PartOfSpeech
  deriving DecidableEq, Repr

/- Python slice `t[a:b]` for `0 ≤ a, b`. -/
def pySlice (t : Str) (a b : Nat) : Str := (t.take b).drop a

/- `str.find(pat, start)` scanning candidate positions `i = start, start+1, …`;
   a position is viable while `i + len(pat) ≤ len(text)` (so the empty pattern
   matches at `start` whenever `start ≤ len(text)`).  Returns `none` for
   Python's `-1`.  The fuel is the number of remaining candidate positions. -/
def pyFindAux (text pat : Str) : Nat → Nat → Option Nat
  | 0, _ => none
  | fuel + 1, i =>
    if i + pat.length ≤ text.length then
      if pat.isPrefixOf (text.drop i) then some i
      else pyFindAux text pat fuel (i + 1)
    else none

def pyFind (text pat : Str) (start : Nat) : Option Nat :=
  pyFindAux text pat (text.length + 1 - start) start

/- `ParserPort._words_with_positions` (parser_port.py lines 135-144). -/
def words_with_positions : List DeckWord → Str → Nat → List (DeckWord × Nat)
  | [], _, _ => []
  | w :: rest, text, current =>
    match pyFind text w.original_text current with
    | some pos => (w, pos) :: words_with_positions rest text (pos + w.original_text.length)
    | none => words_with_positions rest text current

/- Step 4 of `ParserPort.parse_text_tokens` (parser_port.py lines 121-133):
   rebuild tokens from anchored words plus plain gaps. -/
def buildTokens : List (DeckWord × Nat) → Str → Nat → List Str
  | [], text, current => if current < text.length then [text.drop current] else []
  | (w, pos) :: rest, text, current =>
    (if current < pos then [pySlice text current pos] else []) ++
      (w.original_text :: buildTokens rest text (pos + w.original_text.length))

/- The token list `parse_text_tokens` produces for input `text` once anchoring
   has yielded the deck-word list `processed`. -/
def parse_text_tokens_rebuild (processed : List DeckWord) (text : Str) : List Str :=
  buildTokens (words_with_positions processed text 0) text 0

/- ============================================================ -/
/- Lexicon: JmWord and priority scoring (jmdict_loader.py lines 190-247).
   Python's `readings`/`spellings` sets are modelled as lists in iteration
   order (the spec itself records the ordering as implementation-defined). -/

structure JmWord where
  word_id : Int
  readings : List Str
  spellings : List Str
  parts_of_speech : List Str
  priorities : List Str
  definitions : List Str
  deriving DecidableEq, Repr

/- `p[2:].isdigit()` for the nf tags.  Python's `isdigit` also accepts
   non-ASCII decimal digits; priority tags are ASCII, so the ASCII range is
   what is modelled. -/
def pyIsDigit (s : Str) : Bool :=
  !s.isEmpty && s.all (fun c => decide (ASCII_DIGIT_START ≤ c ∧ c ≤ ASCII_DIGIT_END))

/- `p.startswith("nf") and p[2:].isdigit()`. -/
def isNfTag (p : Str) : Bool :=
  (lit "nf").isPrefixOf p && pyIsDigit (p.drop 2)

/- `int(p[2:])` on a digit string. -/
def natOfDigits (s : Str) : Nat :=
  s.foldl (fun acc c => acc * 10 + (c - ASCII_DIGIT_START)) 0

/- Python `round(n / 10.0)`: round-half-to-even.  `n / 10.0` is an exact
   double whenever `n % 10 ∈ {0, 5}` and `n` is small, and for `n ≥ 46` the
   clamped contribution is 0 under either reading, so this integer model
   agrees with the float computation wherever it can affect the score. -/
def pyRoundDiv10 (n : Nat) : Nat :=
  let q := n / 10
  let r := n % 10
  if r < 5 then q
  else if 5 < r then q + 1
  else if q % 2 = 0 then q else q + 1

/- Contribution of the first `nf<NN>` tag (the `for p in pr: ... break` loop
   of `get_priority_score`). -/
def nfContribution (pr : List Str) : Int :=
  match pr.find? isNfTag with
  | none => 0
  | some p => max 0 (5 - (pyRoundDiv10 (natOfDigits (p.drop 2)) : Int))

/- `JmWord.get_priority_score` (jmdict_loader.py lines 199-247), with the
   sequential `score +=` accumulation of the source. -/
def get_priority_score (w : JmWord) (is_kana : Bool) : Int :=
  let pr := w.priorities
  let score : Int := 0
  -- Highest explicit override
  let score := if pr.any (fun p => p == lit "jiten") then score + 100 else score
  -- Ichi
  let score :=
    if pr.any (fun p => p == lit "ichi1" || p == lit "ichi") then score + 20
    else if pr.any (fun p => p == lit "ichi2") then score + 10
    else score
  -- News; Yomitan encodes as news1k/news2k; accept the prefix
  let score := if pr.any (fun p => (lit "news1").isPrefixOf p) then score + 15 else score
  let score := if pr.any (fun p => (lit "news2").isPrefixOf p) then score + 10 else score
  -- Gai1/2
  let score := if pr.any (fun p => p == lit "gai1" || p == lit "gai2") then score + 5 else score
  -- nfXX
  let score := score + nfContribution pr
  -- spec1/spec2 apply only while the running score is still 0
  let score :=
    if score = 0 then
      if pr.any (fun p => p == lit "spec1") then score + 15
      else if pr.any (fun p => p == lit "spec2") then score + 5
      else score
    else score
  -- Kana bias for uk
  if w.parts_of_speech.any (fun p => p == lit "uk") then
    if is_kana then score + 10 else score - 10
  else score

/- The claim's contribution table, clause by clause, as independent addends
   (the spec-side description of `get_priority_score`). -/
def jitenContribution (pr : List Str) : Int :=
  if pr.any (fun p => p == lit "jiten") then 100 else 0

def ichiContribution (pr : List Str) : Int :=
  if pr.any (fun p => p == lit "ichi1" || p == lit "ichi") then 20
  else if pr.any (fun p => p == lit "ichi2") then 10
  else 0

def news1Contribution (pr : List Str) : Int :=
  if pr.any (fun p => (lit "news1").isPrefixOf p) then 15 else 0

def news2Contribution (pr : List Str) : Int :=
  if pr.any (fun p => (lit "news2").isPrefixOf p) then 10 else 0

def gaiContribution (pr : List Str) : Int :=
  if pr.any (fun p => p == lit "gai1" || p == lit "gai2") then 5 else 0

def specContribution (pr : List Str) : Int :=
  if pr.any (fun p => p == lit "spec1") then 15
  else if pr.any (fun p => p == lit "spec2") then 5
  else 0

def ukContribution (pos : List Str) (is_kana : Bool) : Int :=
  if pos.any (fun p => p == lit "uk") then (if is_kana then 10 else -10) else 0

/- The running score before the spec1/spec2 gate: sum of the unconditional
   contributions. -/
def specBaseScore (pr : List Str) : Int :=
  jitenContribution pr + ichiContribution pr + news1Contribution pr +
    news2Contribution pr + gaiContribution pr + nfContribution pr

/- The claim's contribution table assembled into a total score. -/
def spec_priority_score (w : JmWord) (is_kana : Bool) : Int :=
  specBaseScore w.priorities +
    (if specBaseScore w.priorities = 0 then specContribution w.priorities else 0) +
    ukContribution w.parts_of_speech is_kana

/- Words used in the concrete priority-score statements. -/
def specOnlyWord : JmWord :=
  { word_id := 0, readings := [], spellings := [], parts_of_speech := [],
    priorities := [lit "spec1"], definitions := [] }

def gaiOnlyWord : JmWord :=
  { word_id := 1, readings := [], spellings := [], parts_of_speech := [],
    priorities := [lit "gai1"], definitions := [] }

/- ============================================================ -/
/- Anchor: reading-index resolution
   (parser_port.ParserPort._compute_reading_index, lines 358-379). -/

/- Python `list.index(x)` inside try/except: the index of the first equal
   element, `none` when absent. -/
def listIndex (l : List Str) (x : Str) : Option Nat :=
  match l with
  | [] => none
  | a :: as => if a = x then some 0 else (listIndex as x).map (· + 1)

/- `_compute_reading_index`: exact match, then match under
   `to_hiragana_preserve_long`, then under `to_hiragana_expand_long`. -/
def compute_reading_index (jm : JmWord) (surface_or_reading : Str) : Option Nat :=
  match listIndex jm.readings surface_or_reading with
  | some i => some i
  | none =>
    match listIndex (jm.readings.map to_hiragana_preserve_long)
        (to_hiragana_preserve_long surface_or_reading) with
    | some i => some i
    | none =>
      listIndex (jm.readings.map to_hiragana_expand_long)
        (to_hiragana_expand_long surface_or_reading)

/- The reading index stored by the verb/adjective strategy
   (parser_port.py lines 325-327): an unresolved index becomes 0. -/
def verb_path_reading_index (jm : JmWord) (key : Str) : Nat :=
  (compute_reading_index jm key).getD 0

/- Word used in the concrete reading-index statements. -/
def readingsWord : JmWord :=
  { word_id := 2, readings := [lit "あ"], spellings := [], parts_of_speech := [],
    priorities := [], definitions := [] }

/- ============================================================ -/
/- Deconjugator (deconjugator.py).  Python's `set[DeconjugationForm]` of
   frozen dataclasses is modelled as a duplicate-free list; `frozenset`
   fields as insertion-ordered duplicate-free lists (the order never
   influences the pipeline). -/

structure DeconjugationForm where
  text : Str
  original_text : Str
  tags : List Str
  seen_text : List Str
  process : List Str
  deriving DecidableEq, Repr

structure Rule where
  type : Str
  context_rule : Option Str
  dec_end : List Str
  con_end : List Str
  dec_tag : Option (List Str)
  con_tag : Option (List Str)
  detail : Str
  deriving DecidableEq, Repr

/- `Deconjugator._create_new_form` (deconjugator.py lines 192-209). -/
def createNewForm (form : DeconjugationForm) (new_text : Str)
    (con_tag dec_tag : Option Str) (detail : Str) : DeconjugationForm :=
  let tags := form.tags
  let tags :=
    if tags = [] then
      match con_tag with
      | some c => tags ++ [c]
      | none => tags
    else tags
  let tags :=
    match dec_tag with
    | some d => tags ++ [d]
    | none => tags
  let seen := if form.seen_text = [] then [form.text] else form.seen_text
  let seen := if new_text ∈ seen then seen else seen ++ [new_text]
  { text := new_text, original_text := form.original_text, tags := tags,
    seen_text := seen, process := form.process ++ [detail] }

/- `Deconjugator._create_substitution_form` (deconjugator.py lines 211-221). -/
def createSubstitutionForm (form : DeconjugationForm) (new_text : Str)
    (detail : Str) : DeconjugationForm :=
  let seen := if form.seen_text = [] then [form.text] else form.seen_text
  let seen := if new_text ∈ seen then seen else seen ++ [new_text]
  { text := new_text, original_text := form.original_text, tags := form.tags,
    seen_text := seen, process := form.process ++ [detail] }

/- Broadcast `l[i] if i < len(l) else l[0]` over the parallel rule lists.
   Python raises on `l[0]` for an empty list; the `[]` default never arises
   for the nonempty `con_end` lists of real rule files (C4 carries that
   hypothesis). -/
def conBroadcast (l : List Str) (i : Nat) : Str :=
  if i < l.length then l.getD i [] else l.headD []

/- Broadcast for the optional tag lists: `l[i] if (l and i < len(l)) else
   (l[0] if l else None)`. -/
def tagBroadcast (o : Option (List Str)) (i : Nat) : Option Str :=
  match o with
  | none => none
  | some l => if i < l.length then l[i]? else l.head?

/- `try_one` inside `Deconjugator._std_rule` (deconjugator.py lines 104-114);
   the local `prefix`/`new_text` variables are inlined: the new text is
   `text[:len(text)-len(con_end)] + dec_end`. -/
def stdTryOne (form : DeconjugationForm) (rule : Rule) (dec_end con_end : Str)
    (dec_tag con_tag : Option Str) : Option DeconjugationForm :=
  if ¬ con_end.isSuffixOf form.text then none
  else if form.tags ≠ [] ∧ form.tags.getLast? ≠ con_tag then none
  else if form.text.take (form.text.length - con_end.length) ++ dec_end =
      form.original_text then none
  else
    some (createNewForm form
      (form.text.take (form.text.length - con_end.length) ++ dec_end)
      con_tag dec_tag rule.detail)

/- `Deconjugator._std_rule` (deconjugator.py lines 99-139): a single try at
   index 0 when `dec_end` has length 1, otherwise one try per index of
   `dec_end` with broadcast fallbacks. -/
def stdRule (form : DeconjugationForm) (rule : Rule) : List DeconjugationForm :=
  if rule.detail = [] ∧ form.tags = [] then []
  else
    (if rule.dec_end.length = 1 then [0] else List.range rule.dec_end.length).filterMap
      fun i =>
        stdTryOne form rule (rule.dec_end.getD i []) (conBroadcast rule.con_end i)
          (tagBroadcast rule.dec_tag i) (tagBroadcast rule.con_tag i)

/- `Deconjugator._rewrite_rule` (lines 163-166). -/
def rewriteRule (form : DeconjugationForm) (rule : Rule) : List DeconjugationForm :=
  if form.text = rule.con_end.headD [] then stdRule form rule else []

/- `Deconjugator._only_final_rule` (lines 168-171). -/
def onlyFinalRule (form : DeconjugationForm) (rule : Rule) : List DeconjugationForm :=
  if form.tags = [] then stdRule form rule else []

/- `Deconjugator._neverfinal_rule` (lines 173-176). -/
def neverFinalRule (form : DeconjugationForm) (rule : Rule) : List DeconjugationForm :=
  if form.tags ≠ [] then stdRule form rule else []

/- `Deconjugator._context_rule` (lines 178-190); the local `con_end` and
   `prefix_len` variables are inlined (`con_end = rule.con_end[0]`,
   `prefix_len = len(text) - len(con_end)`); さ = 0x3055. -/
def contextRule (form : DeconjugationForm) (rule : Rule) : List DeconjugationForm :=
  if rule.context_rule = some (lit "v1inftrap") ∧ form.tags = [lit "stem-ren"] then []
  else if rule.context_rule = some (lit "saspecial") then
    if rule.con_end = [] then []
    else if ¬ (rule.con_end.headD []).isSuffixOf form.text then []
    else if 0 < form.text.length - (rule.con_end.headD []).length ∧
        pySlice form.text (form.text.length - (rule.con_end.headD []).length - 1)
          (form.text.length - (rule.con_end.headD []).length) = lit "さ" then []
    else stdRule form rule
  else stdRule form rule

/- Python `str.replace(con, dec)` for nonempty `con`: scan left to right,
   replace non-overlapping occurrences.  Each step consumes at least one
   character, so `t.length` scan steps always suffice, and when the fuel runs
   out the remaining text is empty — the fuel never truncates the result. -/
def pyReplaceGo (con dec : Str) : Nat → Str → Str
  | 0, t => t
  | fuel + 1, t =>
    if con.isPrefixOf t ∧ con ≠ [] then dec ++ pyReplaceGo con dec fuel (t.drop con.length)
    else
      match t with
      | [] => []
      | c :: rest => c :: pyReplaceGo con dec fuel rest

/- `str.replace`; for an empty pattern Python inserts the replacement at every
   boundary ("ab".replace("", "x") = "xaxbx"). -/
def pyReplace (t con dec : Str) : Str :=
  if con = [] then dec ++ (t.map (fun c => c :: dec)).flatten
  else pyReplaceGo con dec t.length t

/- Python `con in t` substring containment, via `t.find(con) != -1`. -/
def strContains (t con : Str) : Bool := (pyFind t con 0).isSome

/- `apply` inside `Deconjugator._substitution` (lines 146-151); the `in`
   test is substring containment. -/
def substitutionApply (form : DeconjugationForm) (con_end dec_end : Str)
    (detail : Str) : Option DeconjugationForm :=
  if strContains form.text con_end then
    some (createSubstitutionForm form (pyReplace form.text con_end dec_end) detail)
  else none

/- `Deconjugator._substitution` (lines 141-161). -/
def substitutionRule (form : DeconjugationForm) (rule : Rule) : List DeconjugationForm :=
  if form.process ≠ [] ∨ form.text = [] then []
  else
    (if rule.dec_end.length = 1 then [0] else List.range rule.dec_end.length).filterMap
      fun i =>
        substitutionApply form (conBroadcast rule.con_end i) (rule.dec_end.getD i [])
          rule.detail

/- `Deconjugator._apply_rule` (lines 83-97); an unknown type yields nothing. -/
def applyRule (form : DeconjugationForm) (rule : Rule) : List DeconjugationForm :=
  if rule.type = lit "stdrule" then stdRule form rule
  else if rule.type = lit "rewriterule" then rewriteRule form rule
  else if rule.type = lit "onlyfinalrule" then onlyFinalRule form rule
  else if rule.type = lit "neverfinalrule" then neverFinalRule form rule
  else if rule.type = lit "contextrule" then contextRule form rule
  else if rule.type = lit "substitution" then substitutionRule form rule
  else []

/- `Deconjugator._skip` (lines 77-81). -/
def skipForm (form : DeconjugationForm) : Bool :=
  form.text.isEmpty ||
    decide (form.original_text.length + 10 < form.text.length) ||
    decide (form.original_text.length + 6 < form.tags.length)

/- The starting form of `deconjugate` (line 58). -/
def initialForm (text : Str) : DeconjugationForm :=
  { text := text, original_text := text, tags := [], seen_text := [], process := [] }

/- `if f not in processed and f not in novel and f not in new_novel:
   new_novel.add(f)` over one rule's output (lines 70-72). -/
def addNew (processed novel : List DeconjugationForm)
    (acc : List DeconjugationForm) (fs : List DeconjugationForm) : List DeconjugationForm :=
  fs.foldl (fun acc f => if f ∈ processed ∨ f ∈ novel ∨ f ∈ acc then acc else acc ++ [f]) acc

/- The per-form body of the BFS loop (lines 63-72): a skipped form expands to
   nothing, otherwise every rule is applied. -/
def expandForm (rules : List Rule) (processed novel : List DeconjugationForm)
    (acc : List DeconjugationForm) (form : DeconjugationForm) : List DeconjugationForm :=
  if skipForm form then acc
  else rules.foldl (fun acc rule => addNew processed novel acc (applyRule form rule)) acc

/- One `while novel:` iteration's `new_novel` (lines 61-72). -/
def newNovel (rules : List Rule) (processed novel : List DeconjugationForm) :
    List DeconjugationForm :=
  novel.foldl (expandForm rules processed novel) []

/- The `while novel:` loop (lines 61-74), fuel-indexed: the Python loop does
   not terminate for every rule set (a cycle of rewrites keeps growing the
   process trace), so the loop is modelled for an arbitrary number of
   iterations and the claims quantify over the fuel. -/
def deconjugateLoop (rules : List Rule) : Nat → List DeconjugationForm →
    List DeconjugationForm → List DeconjugationForm
  | 0, processed, _ => processed
  | fuel + 1, processed, novel =>
    if novel = [] then processed
    else
      deconjugateLoop rules fuel
        (processed ++ novel.filter (fun f => decide (f ∉ processed)))
        (newNovel rules processed novel)

/- `Deconjugator.deconjugate` (lines 53-75). -/
def deconjugate (rules : List Rule) (fuel : Nat) (text : Str) : List DeconjugationForm :=
  if text = [] then [] else deconjugateLoop rules fuel [] [initialForm text]

/- The spec-side characterisation of a standard-rule application (C4's words):
   refusal on empty detail with empty tags; per-broadcast-index success iff
   the text ends with conEnd and the tags admit conTag; the rewritten text;
   discard of results equal to the original text. -/
def stdRuleSpecAdmits (form : DeconjugationForm) (rule : Rule) (f : DeconjugationForm) : Prop :=
  (rule.detail ≠ [] ∨ form.tags ≠ []) ∧
  ∃ i < rule.dec_end.length,
    (conBroadcast rule.con_end i).isSuffixOf form.text ∧
    (form.tags = [] ∨ form.tags.getLast? = tagBroadcast rule.con_tag i) ∧
    form.text.take (form.text.length - (conBroadcast rule.con_end i).length) ++
      rule.dec_end.getD i [] ≠ form.original_text ∧
    f = createNewForm form
      (form.text.take (form.text.length - (conBroadcast rule.con_end i).length) ++
        rule.dec_end.getD i [])
      (tagBroadcast rule.con_tag i) (tagBroadcast rule.dec_tag i) rule.detail

/- Rules used in the concrete deconjugator statements. -/
def identitySubstRule : Rule :=
  { type := lit "substitution", context_rule := none, dec_end := [lit "a"],
    con_end := [lit "a"], dec_tag := none, con_tag := none, detail := lit "sub" }

def longStdRule : Rule :=
  { type := lit "stdrule", context_rule := none, dec_end := [lit "bbbbbbbbbbbb"],
    con_end := [lit "a"], dec_tag := none, con_tag := none, detail := lit "grow" }

def pastStdRule : Rule :=
  { type := lit "stdrule", context_rule := none, dec_end := [lit "る"],
    con_end := [lit "た"], dec_tag := some [lit "past"], con_tag := none,
    detail := lit "past tense" }

def pastStdOut : DeconjugationForm :=
  createNewForm (initialForm (lit "食べた")) (lit "食べる") none (some (lit "past"))
    (lit "past tense")

/- ============================================================ -/
/- Merge pipeline: the two passes that append text onto the previous record
   through a shared reference (_analyzer.combine_conjunctive_particle lines
   331-348 and combine_auxiliary lines 351-377).  Python reference semantics
   are modelled with an explicit heap: the input records are cells 0..n-1 of
   a `List WordInfo` heap, `out` is a list of cell indices, and
   `prev.text += current.text` writes through the heap.  The pass returns the
   final `out` (as indices) together with the final heap; "the input records
   are unchanged" is "the final heap equals the input list". -/

structure WordInfo where
  text : Str
  part_of_speech : PartOfSpeech
  pos1 : PartOfSpeechSection
  pos2 : PartOfSpeechSection
  pos3 : PartOfSpeechSection
  normalized_form : Str
  dictionary_form : Str
  reading : Str
  is_invalid : Bool
  deriving DecidableEq, Repr

/- The dataclass defaults of `_wordinfo.WordInfo`. -/
instance : Inhabited WordInfo :=
  ⟨{ text := [], part_of_speech := .Unknown, pos1 := .None_, pos2 := .None_,
     pos3 := .None_, normalized_form := [], dictionary_form := [], reading := [],
     is_invalid := false }⟩

/- `WordInfo.has_section` (_wordinfo.py lines 72-73). -/
def hasSection (w : WordInfo) (s : PartOfSpeechSection) : Prop :=
  w.pos1 = s ∨ w.pos2 = s ∨ w.pos3 = s

instance (w : WordInfo) (s : PartOfSpeechSection) : Decidable (hasSection w s) := by
  unfold hasSection
  infer_instance

/- The merge condition of `combine_conjunctive_particle` (lines 339-343). -/
def ccpCond (cur prev : WordInfo) : Prop :=
  hasSection cur .ConjunctionParticle ∧
  (cur.text = lit "て" ∨ cur.text = lit "で" ∨ cur.text = lit "ちゃ" ∨
    cur.text = lit "ば") ∧
  (prev.part_of_speech = .Verb ∨ prev.part_of_speech = .IAdjective ∨
    prev.part_of_speech = .Auxiliary)

instance (cur prev : WordInfo) : Decidable (ccpCond cur prev) := by
  unfold ccpCond
  infer_instance

/- One iteration of `combine_conjunctive_particle`'s loop: `current` is input
   cell `i`, `prev` the cell `out` last refers to; a merge writes
   `prev.text += current.text` into the heap and keeps `out`. -/
def ccpStep (st : List Nat × List WordInfo) (i : Nat) : List Nat × List WordInfo :=
  match st.1.getLast? with
  | none => (st.1 ++ [i], st.2)
  | some j =>
    if ccpCond (st.2.getD i default) (st.2.getD j default) then
      (st.1, st.2.set j { st.2.getD j default with
        text := (st.2.getD j default).text ++ (st.2.getD i default).text })
    else (st.1 ++ [i], st.2)

/- `combine_conjunctive_particle` (lines 331-348): `out` starts as
   `[word_infos[0]]` and the loop runs over indices 1..n-1. -/
def combine_conjunctive_particle (ws : List WordInfo) : List Nat × List WordInfo :=
  if ws.length < 2 then (List.range ws.length, ws)
  else (List.range' 1 (ws.length - 1)).foldl ccpStep ([0], ws)

/- The merge condition of `combine_auxiliary` for an Auxiliary follower
   (lines 361-373). -/
def auxCond (cur prev : WordInfo) : Prop :=
  (prev.part_of_speech = .Verb ∨ prev.part_of_speech = .IAdjective ∨
    prev.part_of_speech = .NaAdjective ∨ prev.part_of_speech = .Auxiliary ∨
    hasSection prev .Adjectival) ∧
  (cur.text ≠ lit "な" ∧ cur.text ≠ lit "に") ∧
  (cur.dictionary_form ≠ lit "です" ∨
    (prev.part_of_speech = .Verb ∧ cur.dictionary_form = lit "です" ∧
      (cur.text = lit "でし" ∨ cur.text = lit "でした"))) ∧
  (cur.dictionary_form ≠ lit "らしい" ∧ cur.dictionary_form ≠ lit "べし" ∧
    cur.dictionary_form ≠ lit "ようだ" ∧ cur.dictionary_form ≠ lit "やがる") ∧
  (cur.text ≠ lit "なら" ∧ cur.text ≠ lit "だろう")

instance (cur prev : WordInfo) : Decidable (auxCond cur prev) := by
  unfold auxCond
  infer_instance

/- One iteration of `combine_auxiliary`'s loop: a non-Auxiliary follower is
   appended untouched; an Auxiliary follower merges into the heap cell of
   `prev` when `auxCond` holds. -/
def auxStep (st : List Nat × List WordInfo) (i : Nat) : List Nat × List WordInfo :=
  if (st.2.getD i default).part_of_speech ≠ PartOfSpeech.Auxiliary then
    (st.1 ++ [i], st.2)
  else
    match st.1.getLast? with
    | none => (st.1 ++ [i], st.2)
    | some j =>
      if auxCond (st.2.getD i default) (st.2.getD j default) then
        (st.1, st.2.set j { st.2.getD j default with
          text := (st.2.getD j default).text ++ (st.2.getD i default).text })
      else (st.1 ++ [i], st.2)

/- `combine_auxiliary` (lines 351-377). -/
def combine_auxiliary (ws : List WordInfo) : List Nat × List WordInfo :=
  if ws.length < 2 then (List.range ws.length, ws)
  else (List.range' 1 (ws.length - 1)).foldl auxStep ([0], ws)

/- Records used in the concrete merge-pass statements. -/
def verbRecord : WordInfo :=
  { text := lit "食べ", part_of_speech := .Verb, pos1 := .None_, pos2 := .None_,
    pos3 := .None_, normalized_form := [], dictionary_form := lit "食べる",
    reading := [], is_invalid := false }

def teParticleRecord : WordInfo :=
  { text := lit "て", part_of_speech := .Particle, pos1 := .ConjunctionParticle,
    pos2 := .None_, pos3 := .None_, normalized_form := [],
    dictionary_form := lit "て", reading := [], is_invalid := false }

def nounRecord : WordInfo :=
  { text := lit "本", part_of_speech := .Noun, pos1 := .None_, pos2 := .None_,
    pos3 := .None_, normalized_form := [], dictionary_form := lit "本",
    reading := [], is_invalid := false }

/- ==================== THEOREMS ==================== -/

lemma preserveLongChar_idem (c : Nat) :
    katakanaToHiraganaChar (waNormalizeChar (katakanaToHiraganaChar (waNormalizeChar c))) =
      katakanaToHiraganaChar (waNormalizeChar c) := by
  simp only [katakanaToHiraganaChar, waNormalizeChar, KATAKANA_SMALL_START, KATAKANA_SMALL_END]
  split_ifs <;> omega

/-- C10: `to_hiragana_preserve_long` is idempotent: applying it twice to any
string gives the same result as applying it once. -/
theorem to_hiragana_preserve_long_idem (s : Str) :
    to_hiragana_preserve_long (to_hiragana_preserve_long s) = to_hiragana_preserve_long s := by
  unfold to_hiragana_preserve_long katakana_to_hiragana
  simp only [List.map_map]
  congr 1
  funext c
  exact preserveLongChar_idem c

/-- C9 counterexample: the reverse width-folding composition is not the
identity on pure-ASCII letter/digit strings: on "a" it yields the fullwidth
letter, not "a". -/
theorem width_fold_reverse_counterexample :
    to_fullwidth_ascii (to_halfwidth_ascii (lit "a")) ≠ lit "a" := by decide

/-- C9 (amended): `toHalfwidthAscii ∘ toFullwidthAscii` is the identity on
strings of ASCII letters and digits, and `toFullwidthAscii ∘ toHalfwidthAscii`
is the identity on strings of fullwidth letters and digits (not on ASCII
strings, as the original claim stated). -/
theorem width_fold_inverse (s : Str) :
    ((∀ c ∈ s, isAsciiAlnum c) → to_halfwidth_ascii (to_fullwidth_ascii s) = s) ∧
    ((∀ c ∈ s, isFullwidthAlnum c) → to_fullwidth_ascii (to_halfwidth_ascii s) = s) := by
  constructor <;> intro h <;>
  · induction s with
    | nil => rfl
    | cons c cs ih =>
      simp only [to_halfwidth_ascii, to_fullwidth_ascii, List.map_cons, List.cons.injEq] at *
      exact ⟨by first
        | exact toHalfwidthChar_toFullwidthChar c (h c (List.mem_cons_self c cs))
        | exact toFullwidthChar_toHalfwidthChar c (h c (List.mem_cons_self c cs)),
        ih fun x hx => h x (List.mem_cons_of_mem c hx)⟩

/-- C9 witness: both inverse laws at concrete inputs. -/
theorem width_fold_inverse_witness :
    to_halfwidth_ascii (to_fullwidth_ascii (lit "A1z")) = lit "A1z" ∧
    to_fullwidth_ascii (to_halfwidth_ascii (lit "Ａ１ｚ")) = lit "Ａ１ｚ" :=
  ⟨(width_fold_inverse (lit "A1z")).1 (by decide),
   (width_fold_inverse (lit "Ａ１ｚ")).2 (by decide)⟩

/- ---------- C1: tokenizer concatenation ---------- -/

lemma pySlice_append_drop (t : Str) (a b : Nat) (hab : a ≤ b) (hb : b ≤ t.length) :
    pySlice t a b ++ t.drop b = t.drop a := by
  have h1 : a ≤ (t.take b).length := by
    simp only [List.length_take]
    omega
  calc pySlice t a b ++ t.drop b
      = (t.take b).drop a ++ t.drop b := rfl
    _ = ((t.take b) ++ t.drop b).drop a := (List.drop_append_of_le_length h1).symm
    _ = t.drop a := by rw [List.take_append_drop]

lemma pyFindAux_spec (text pat : Str) :
    ∀ fuel i pos, pyFindAux text pat fuel i = some pos →
      i ≤ pos ∧ pos + pat.length ≤ text.length ∧
        text.drop pos = pat ++ text.drop (pos + pat.length) := by
  intro fuel
  induction fuel with
  | zero => intro i pos h; simp [pyFindAux] at h
  | succ fuel ih =>
    intro i pos h
    simp only [pyFindAux] at h
    split at h
    · next hle =>
      split at h
      · next hpre =>
        cases h
        refine ⟨le_refl _, hle, ?_⟩
        obtain ⟨t2, ht2⟩ := (List.isPrefixOf_iff_prefix.mp hpre)
        have hlen : t2 = text.drop (i + pat.length) := by
          have h5 : (text.drop i).drop pat.length = t2 := by
            rw [← ht2]
            simp
          rw [← h5, List.drop_drop]
        rw [← ht2, hlen]
      · next =>
        obtain ⟨h1, h2, h3⟩ := ih (i + 1) pos h
        exact ⟨by omega, h2, h3⟩
    · exact absurd h (by simp)

lemma pyFind_spec (text pat : Str) (start pos : Nat) (h : pyFind text pat start = some pos) :
    start ≤ pos ∧ pos + pat.length ≤ text.length ∧
      text.drop pos = pat ++ text.drop (pos + pat.length) :=
  pyFindAux_spec text pat _ start pos h

lemma buildTokens_flatten (text : Str) :
    ∀ processed current, current ≤ text.length →
      (buildTokens (words_with_positions processed text current) text current).flatten =
        text.drop current := by
  intro processed
  induction processed with
  | nil =>
    intro current hc
    simp only [words_with_positions, buildTokens]
    split
    · simp
    · next hlt =>
      simp only [List.flatten_nil]
      exact (List.drop_eq_nil_of_le (by omega)).symm
  | cons w rest ih =>
    intro current hc
    simp only [words_with_positions]
    cases hf : pyFind text w.original_text current with
    | none => exact ih current hc
    | some pos =>
      obtain ⟨h1, h2, h3⟩ := pyFind_spec text w.original_text current pos hf
      have hrec := ih (pos + w.original_text.length) h2
      simp only [buildTokens, List.flatten_append, List.flatten_cons, hrec]
      split
      · next hlt =>
        simp only [List.flatten_cons, List.flatten_nil, List.append_nil, ← h3,
          List.append_assoc]
        exact pySlice_append_drop text current pos (le_of_lt hlt) (by omega)
      · next hlt =>
        have : current = pos := by omega
        subst this
        simp [← h3]

/-- C1: for every input text and every anchored deck-word list, the token list
rebuilt by `parse_text_tokens` (gap tokens interleaved with located anchor
surfaces plus a trailing gap) concatenates back to exactly the input text. -/
theorem parse_text_tokens_concat (processed : List DeckWord) (text : Str) :
    (parse_text_tokens_rebuild processed text).flatten = text :=
  buildTokens_flatten text processed 0 (Nat.zero_le _)

/- ---------- C5 / C6: priority scoring ---------- -/

lemma ite_add_shift (c : Prop) [Decidable c] (s v : Int) :
    (if c then s + v else s) = s + (if c then v else 0) := by
  split_ifs <;> omega

lemma ite_add_shiftR (c1 c2 : Prop) [Decidable c1] [Decidable c2] (s v1 v2 : Int) :
    (if c1 then s + v1 else s + (if c2 then v2 else 0)) =
      s + (if c1 then v1 else if c2 then v2 else 0) := by
  split_ifs <;> omega

lemma uk_shift (c : Prop) [Decidable c] (k : Bool) (s : Int) :
    (if c then (if k then s + 10 else s - 10) else s) =
      s + (if c then (if k then 10 else -10) else 0) := by
  split_ifs <;> omega

lemma score_eq_spec (w : JmWord) (is_kana : Bool) :
    get_priority_score w is_kana = spec_priority_score w is_kana := by
  unfold get_priority_score spec_priority_score specBaseScore jitenContribution
    ichiContribution news1Contribution news2Contribution gaiContribution
    specContribution ukContribution
  simp only [ite_add_shift, ite_add_shiftR, uk_shift, zero_add]

/-- C5: `get_priority_score` equals the spec's contribution table: +100 for
jiten; +20 for ichi1/ichi else +10 for ichi2; +15 for a news1-prefixed tag;
+10 for a news2-prefixed tag; +5 for gai1/gai2; max(0, 5 - round(N/10)) for
the first nf tag only; +15 for spec1 else +5 for spec2 only when the running
score is still 0; and ±10 for uk depending on kana-ness. -/
theorem priority_score_matches_table (w : JmWord) (is_kana : Bool) :
    get_priority_score w is_kana = spec_priority_score w is_kana :=
  score_eq_spec w is_kana

/-- C6 counterexample: appending the known priority token gai1 to a word
whose priority list is [spec1] lowers the score from 15 to 5, so appending a
known token can decrease the score. -/
theorem priority_append_decreases :
    get_priority_score { specOnlyWord with
        priorities := specOnlyWord.priorities ++ [lit "gai1"] } false <
      get_priority_score specOnlyWord false := by decide

lemma any_append_one (l : List Str) (p : Str) (f : Str → Bool) (h : l.any f) :
    (l ++ [p]).any f := by
  simp only [List.any_append, h, Bool.true_or]

lemma find?_append_of_some {α} (l : List α) (l2 : List α) (f : α → Bool) (a : α)
    (h : l.find? f = some a) : (l ++ l2).find? f = some a := by
  induction l with
  | nil => simp [List.find?] at h
  | cons x xs ih =>
    cases hx : f x with
    | true =>
      rw [List.find?_cons_of_pos _ hx] at h
      rw [List.cons_append, List.find?_cons_of_pos _ hx]
      exact h
    | false =>
      rw [List.find?_cons_of_neg _ (by simp [hx])] at h
      rw [List.cons_append, List.find?_cons_of_neg _ (by simp [hx])]
      exact ih h

lemma jitenContribution_mono (pr : List Str) (p : Str) :
    jitenContribution pr ≤ jitenContribution (pr ++ [p]) := by
  unfold jitenContribution
  by_cases h : pr.any (fun q => q == lit "jiten")
  · rw [if_pos h, if_pos (any_append_one _ _ _ h)]
  · rw [if_neg h]
    split_ifs <;> omega

lemma ichiContribution_mono (pr : List Str) (p : Str) :
    ichiContribution pr ≤ ichiContribution (pr ++ [p]) := by
  unfold ichiContribution
  by_cases h1 : pr.any (fun q => q == lit "ichi1" || q == lit "ichi")
  · rw [if_pos h1, if_pos (any_append_one _ _ _ h1)]
  · rw [if_neg h1]
    by_cases h2 : pr.any (fun q => q == lit "ichi2")
    · rw [if_pos h2]
      by_cases h3 : (pr ++ [p]).any (fun q => q == lit "ichi1" || q == lit "ichi")
      · rw [if_pos h3]
        omega
      · rw [if_neg h3, if_pos (any_append_one _ _ _ h2)]
    · rw [if_neg h2]
      split_ifs <;> omega

lemma news1Contribution_mono (pr : List Str) (p : Str) :
    news1Contribution pr ≤ news1Contribution (pr ++ [p]) := by
  unfold news1Contribution
  by_cases h : pr.any (fun q => (lit "news1").isPrefixOf q)
  · rw [if_pos h, if_pos (any_append_one _ _ _ h)]
  · rw [if_neg h]
    split_ifs <;> omega

lemma news2Contribution_mono (pr : List Str) (p : Str) :
    news2Contribution pr ≤ news2Contribution (pr ++ [p]) := by
  unfold news2Contribution
  by_cases h : pr.any (fun q => (lit "news2").isPrefixOf q)
  · rw [if_pos h, if_pos (any_append_one _ _ _ h)]
  · rw [if_neg h]
    split_ifs <;> omega

lemma gaiContribution_mono (pr : List Str) (p : Str) :
    gaiContribution pr ≤ gaiContribution (pr ++ [p]) := by
  unfold gaiContribution
  by_cases h : pr.any (fun q => q == lit "gai1" || q == lit "gai2")
  · rw [if_pos h, if_pos (any_append_one _ _ _ h)]
  · rw [if_neg h]
    split_ifs <;> omega

lemma nfContribution_nonneg (pr : List Str) : 0 ≤ nfContribution pr := by
  unfold nfContribution
  cases h : pr.find? isNfTag <;> simp

lemma nfContribution_mono (pr : List Str) (p : Str) :
    nfContribution pr ≤ nfContribution (pr ++ [p]) := by
  unfold nfContribution
  cases h : pr.find? isNfTag with
  | none =>
    cases h2 : (pr ++ [p]).find? isNfTag <;> simp
  | some q => rw [find?_append_of_some _ _ _ _ h]

lemma specContribution_nonneg (pr : List Str) : 0 ≤ specContribution pr := by
  unfold specContribution
  split_ifs <;> omega

lemma specBaseScore_mono (pr : List Str) (p : Str) :
    specBaseScore pr ≤ specBaseScore (pr ++ [p]) := by
  unfold specBaseScore
  have := jitenContribution_mono pr p
  have := ichiContribution_mono pr p
  have := news1Contribution_mono pr p
  have := news2Contribution_mono pr p
  have := gaiContribution_mono pr p
  have := nfContribution_mono pr p
  omega

/-- C6 (amended): appending a priority token never decreases the score,
provided neither spec1 nor spec2 occurs in the word's priority list (in that
case a token that makes the running score nonzero forfeits the gated spec1/
spec2 bonus and the total can drop, as the counterexample shows). -/
theorem priority_append_mono (w : JmWord) (p : Str) (is_kana : Bool)
    (h1 : ¬ w.priorities.any (fun q => q == lit "spec1"))
    (h2 : ¬ w.priorities.any (fun q => q == lit "spec2")) :
    get_priority_score w is_kana ≤
      get_priority_score { w with priorities := w.priorities ++ [p] } is_kana := by
  rw [score_eq_spec, score_eq_spec]
  unfold spec_priority_score
  have hbase := specBaseScore_mono w.priorities p
  have hold : specContribution w.priorities = 0 := by
    unfold specContribution
    simp [h1, h2]
  have hnew := specContribution_nonneg (w.priorities ++ [p])
  simp only [hold]
  split_ifs <;> omega

/-- C6 witness: the amended monotonicity law at a concrete word and token. -/
theorem priority_append_mono_witness :
    get_priority_score gaiOnlyWord false ≤
      get_priority_score { gaiOnlyWord with
        priorities := gaiOnlyWord.priorities ++ [lit "ichi1"] } false :=
  priority_append_mono gaiOnlyWord (lit "ichi1") false (by decide) (by decide)

/- ---------- C8: reading-index validity ---------- -/

lemma listIndex_lt_length (l : List Str) (x : Str) :
    ∀ i, listIndex l x = some i → i < l.length := by
  induction l with
  | nil => intro i h; simp [listIndex] at h
  | cons a as ih =>
    intro i h
    rw [listIndex] at h
    split at h
    · cases h
      simp only [List.length_cons]
      omega
    · cases hj : listIndex as x with
      | none => rw [hj] at h; simp at h
      | some j =>
        rw [hj] at h
        simp at h
        have := ih j hj
        simp only [List.length_cons]
        omega

lemma compute_reading_index_lt (jm : JmWord) (q : Str) :
    ∀ i, compute_reading_index jm q = some i → i < jm.readings.length := by
  intro i h
  unfold compute_reading_index at h
  split at h
  · next heq => cases h; exact listIndex_lt_length _ _ _ heq
  · split at h
    · next heq =>
      cases h
      have := listIndex_lt_length _ _ _ heq
      simpa using this
    · have := listIndex_lt_length _ _ _ h
      simpa using this

/-- C8: a resolved reading index always references an existing entry of the
word's readings list, and the verb/adjective path's index (0 when resolution
fails) is valid whenever the word has at least one reading — which every
word reachable through the lexicon lookups has, since every lookup key is
derived from a reading or spelling. -/
theorem reading_index_valid (jm : JmWord) (q : Str) :
    (∀ i, compute_reading_index jm q = some i → i < jm.readings.length) ∧
    (jm.readings ≠ [] → verb_path_reading_index jm q < jm.readings.length) := by
  refine ⟨compute_reading_index_lt jm q, fun hne => ?_⟩
  unfold verb_path_reading_index
  cases h : compute_reading_index jm q with
  | none =>
    simp only [Option.getD_none]
    exact List.length_pos.mpr hne
  | some i =>
    simp only [Option.getD_some]
    exact compute_reading_index_lt jm q i h

/-- C8 witness: both parts of the validity law at a concrete word. -/
theorem reading_index_valid_witness :
    0 < readingsWord.readings.length ∧
    verb_path_reading_index readingsWord (lit "い") < readingsWord.readings.length :=
  ⟨(reading_index_valid readingsWord (lit "あ")).1 0 (by decide),
   (reading_index_valid readingsWord (lit "い")).2 (by decide)⟩

/- ---------- C2 / C3 / C4: deconjugator ---------- -/

lemma mem_broadcastIdxs (n i : Nat) :
    i ∈ (if n = 1 then [0] else List.range n) ↔ i < n := by
  split_ifs with h
  · subst h
    simp only [List.mem_singleton]
    omega
  · exact List.mem_range

lemma stdTryOne_eq_some_iff (form : DeconjugationForm) (rule : Rule) (de ce : Str)
    (dt ct : Option Str) (f : DeconjugationForm) :
    stdTryOne form rule de ce dt ct = some f ↔
      (ce.isSuffixOf form.text ∧ (form.tags = [] ∨ form.tags.getLast? = ct) ∧
       form.text.take (form.text.length - ce.length) ++ de ≠ form.original_text ∧
       f = createNewForm form (form.text.take (form.text.length - ce.length) ++ de)
         ct dt rule.detail) := by
  unfold stdTryOne
  split_ifs with h1 h2 h3
  -- suffix holds, the tag guard refuses
  · simp only [reduceCtorEq, false_iff]
    rintro ⟨-, hor, -, -⟩
    rcases hor with he | hl
    · exact h2.1 he
    · exact h2.2 hl
  -- suffix and tags fine, the result equals the original text
  · simp only [reduceCtorEq, false_iff]
    rintro ⟨-, -, hne, -⟩
    exact hne h3
  -- the successful branch
  · push_neg at h2
    simp only [Option.some.injEq]
    constructor
    · intro h
      refine ⟨h1, ?_, h3, h.symm⟩
      by_cases he : form.tags = []
      · exact Or.inl he
      · exact Or.inr (h2 he)
    · rintro ⟨-, -, -, hf⟩
      exact hf.symm
  -- the suffix test fails
  · simp only [reduceCtorEq, false_iff]
    rintro ⟨hs, -, -, -⟩
    exact h1 hs

lemma stdRule_mem (form : DeconjugationForm) (rule : Rule) (f : DeconjugationForm)
    (h : f ∈ stdRule form rule) :
    f.original_text = form.original_text ∧ f.text ≠ form.original_text ∧
      f.process = form.process ++ [rule.detail] := by
  by_cases hg : rule.detail = [] ∧ form.tags = []
  · unfold stdRule at h
    rw [if_pos hg] at h
    simp at h
  · unfold stdRule at h
    rw [if_neg hg] at h
    obtain ⟨i, _, hsome⟩ := List.mem_filterMap.mp h
    rw [stdTryOne_eq_some_iff] at hsome
    obtain ⟨-, -, hne, hf⟩ := hsome
    subst hf
    exact ⟨rfl, hne, rfl⟩

lemma rewriteRule_mem (form : DeconjugationForm) (rule : Rule) (f : DeconjugationForm)
    (h : f ∈ rewriteRule form rule) : f ∈ stdRule form rule := by
  unfold rewriteRule at h
  split_ifs at h
  · exact h
  · simp at h

lemma onlyFinalRule_mem (form : DeconjugationForm) (rule : Rule) (f : DeconjugationForm)
    (h : f ∈ onlyFinalRule form rule) : f ∈ stdRule form rule := by
  unfold onlyFinalRule at h
  split_ifs at h
  · exact h
  · simp at h

lemma neverFinalRule_mem (form : DeconjugationForm) (rule : Rule) (f : DeconjugationForm)
    (h : f ∈ neverFinalRule form rule) : f ∈ stdRule form rule := by
  unfold neverFinalRule at h
  split_ifs at h
  · exact h
  · simp at h

lemma contextRule_mem (form : DeconjugationForm) (rule : Rule) (f : DeconjugationForm)
    (h : f ∈ contextRule form rule) : f ∈ stdRule form rule := by
  unfold contextRule at h
  split_ifs at h <;> first
    | exact h
    | simp at h

lemma substitutionApply_eq_some (form : DeconjugationForm) (ce de detail : Str)
    (f : DeconjugationForm) (h : substitutionApply form ce de detail = some f) :
    f.original_text = form.original_text ∧ f.process = form.process ++ [detail] := by
  unfold substitutionApply at h
  split_ifs at h
  cases h
  exact ⟨rfl, rfl⟩

lemma substitutionRule_mem (form : DeconjugationForm) (rule : Rule) (f : DeconjugationForm)
    (h : f ∈ substitutionRule form rule) :
    form.process = [] ∧ f.original_text = form.original_text ∧
      f.process = form.process ++ [rule.detail] := by
  by_cases hg : form.process ≠ [] ∨ form.text = []
  · unfold substitutionRule at h
    rw [if_pos hg] at h
    simp at h
  · unfold substitutionRule at h
    rw [if_neg hg] at h
    push_neg at hg
    obtain ⟨i, _, hsome⟩ := List.mem_filterMap.mp h
    obtain ⟨ho, hp⟩ := substitutionApply_eq_some _ _ _ _ _ hsome
    exact ⟨hg.1, ho, hp⟩

lemma applyRule_mem (form : DeconjugationForm) (rule : Rule) (f : DeconjugationForm)
    (h : f ∈ applyRule form rule) :
    f.original_text = form.original_text ∧ f.process ≠ [] ∧
      (f.text ≠ form.original_text ∨
        (rule.type = lit "substitution" ∧ form.process = [])) := by
  unfold applyRule at h
  split_ifs at h with h1 h2 h3 h4 h5 h6
  · obtain ⟨ho, ht, hp⟩ := stdRule_mem _ _ _ h
    exact ⟨ho, by simp [hp], Or.inl ht⟩
  · obtain ⟨ho, ht, hp⟩ := stdRule_mem _ _ _ (rewriteRule_mem _ _ _ h)
    exact ⟨ho, by simp [hp], Or.inl ht⟩
  · obtain ⟨ho, ht, hp⟩ := stdRule_mem _ _ _ (onlyFinalRule_mem _ _ _ h)
    exact ⟨ho, by simp [hp], Or.inl ht⟩
  · obtain ⟨ho, ht, hp⟩ := stdRule_mem _ _ _ (neverFinalRule_mem _ _ _ h)
    exact ⟨ho, by simp [hp], Or.inl ht⟩
  · obtain ⟨ho, ht, hp⟩ := stdRule_mem _ _ _ (contextRule_mem _ _ _ h)
    exact ⟨ho, by simp [hp], Or.inl ht⟩
  · obtain ⟨hemp, ho, hp⟩ := substitutionRule_mem _ _ _ h
    exact ⟨ho, by simp [hp], Or.inr ⟨h6, hemp⟩⟩
  · simp at h

lemma mem_addNew (processed novel : List DeconjugationForm) :
    ∀ (fs acc : List DeconjugationForm) (f : DeconjugationForm),
      f ∈ addNew processed novel acc fs → f ∈ acc ∨ f ∈ fs := by
  intro fs
  induction fs with
  | nil => intro acc f h; exact Or.inl h
  | cons x xs ih =>
    intro acc f h
    have h' : f ∈ addNew processed novel
        (if x ∈ processed ∨ x ∈ novel ∨ x ∈ acc then acc else acc ++ [x]) xs := h
    rcases ih _ f h' with hin | hin
    · split_ifs at hin with hc
      · exact Or.inl hin
      · rcases List.mem_append.mp hin with h1 | h1
        · exact Or.inl h1
        · simp only [List.mem_singleton] at h1
          subst h1
          exact Or.inr (List.mem_cons_self _ _)
    · exact Or.inr (List.mem_cons_of_mem _ hin)

lemma mem_rulesFold (processed novel : List DeconjugationForm) (form : DeconjugationForm) :
    ∀ (rs : List Rule) (acc : List DeconjugationForm) (f : DeconjugationForm),
      f ∈ rs.foldl (fun acc rule => addNew processed novel acc (applyRule form rule)) acc →
      f ∈ acc ∨ ∃ r ∈ rs, f ∈ applyRule form r := by
  intro rs
  induction rs with
  | nil => intro acc f h; exact Or.inl h
  | cons r rest ih =>
    intro acc f h
    rw [List.foldl_cons] at h
    rcases ih _ f h with hin | ⟨r2, hr2, hf⟩
    · rcases mem_addNew processed novel _ _ f hin with h1 | h1
      · exact Or.inl h1
      · exact Or.inr ⟨r, List.mem_cons_self _ _, h1⟩
    · exact Or.inr ⟨r2, List.mem_cons_of_mem _ hr2, hf⟩

lemma mem_expandForm (rules : List Rule) (processed novel acc : List DeconjugationForm)
    (form f : DeconjugationForm) (h : f ∈ expandForm rules processed novel acc form) :
    f ∈ acc ∨ (skipForm form = false ∧ ∃ r ∈ rules, f ∈ applyRule form r) := by
  unfold expandForm at h
  split_ifs at h with hs
  · exact Or.inl h
  · rcases mem_rulesFold processed novel form rules acc f h with h1 | h1
    · exact Or.inl h1
    · exact Or.inr ⟨by simpa using hs, h1⟩

lemma mem_newNovel (rules : List Rule) (processed novel : List DeconjugationForm)
    (f : DeconjugationForm) (h : f ∈ newNovel rules processed novel) :
    ∃ form ∈ novel, skipForm form = false ∧ ∃ r ∈ rules, f ∈ applyRule form r := by
  unfold newNovel at h
  suffices haux : ∀ (l acc : List DeconjugationForm),
      f ∈ l.foldl (expandForm rules processed novel) acc →
      f ∈ acc ∨ ∃ form ∈ l, skipForm form = false ∧ ∃ r ∈ rules, f ∈ applyRule form r by
    rcases haux novel [] h with h1 | h1
    · simp at h1
    · exact h1
  intro l
  induction l with
  | nil => intro acc h2; exact Or.inl h2
  | cons x xs ih =>
    intro acc h2
    rw [List.foldl_cons] at h2
    rcases ih _ h2 with h1 | ⟨form, hform, hrest⟩
    · rcases mem_expandForm rules processed novel acc x f h1 with h3 | h3
      · exact Or.inl h3
      · exact Or.inr ⟨x, List.mem_cons_self _ _, h3⟩
    · exact Or.inr ⟨form, List.mem_cons_of_mem _ hform, hrest⟩

lemma deconjugateLoop_invariant (rules : List Rule) (P : DeconjugationForm → Prop)
    (hstep : ∀ form r g, P form → skipForm form = false → r ∈ rules →
      g ∈ applyRule form r → P g) :
    ∀ (fuel : Nat) (processed novel : List DeconjugationForm),
      (∀ f ∈ processed, P f) → (∀ f ∈ novel, P f) →
      ∀ f ∈ deconjugateLoop rules fuel processed novel, P f := by
  intro fuel
  induction fuel with
  | zero => intro processed novel hp _ f hf; exact hp f hf
  | succ fuel ih =>
    intro processed novel hp hn f hf
    rw [deconjugateLoop] at hf
    split_ifs at hf
    · exact hp f hf
    · refine ih _ _ ?_ ?_ f hf
      · intro g hg
        rcases List.mem_append.mp hg with h | h
        · exact hp g h
        · exact hn g (List.mem_filter.mp h).1
      · intro g hg
        obtain ⟨form, hform, hskip, r, hr, happ⟩ := mem_newNovel rules processed novel g hg
        exact hstep form r g (hn form hform) hskip hr happ

lemma deconjugate_invariant (rules : List Rule) (t : Str) (fuel : Nat)
    (P : DeconjugationForm → Prop) (hinit : P (initialForm t))
    (hstep : ∀ form r g, P form → skipForm form = false → r ∈ rules →
      g ∈ applyRule form r → P g) :
    ∀ f ∈ deconjugate rules fuel t, P f := by
  intro f hf
  unfold deconjugate at hf
  split_ifs at hf with ht
  · simp at hf
  · refine deconjugateLoop_invariant rules P hstep fuel [] [initialForm t]
      (by simp) ?_ f hf
    intro g hg
    simp only [List.mem_singleton] at hg
    subst hg
    exact hinit

lemma skipForm_eq_false (form : DeconjugationForm) (h : skipForm form = false) :
    form.text ≠ [] ∧ form.text.length ≤ form.original_text.length + 10 ∧
      form.tags.length ≤ form.original_text.length + 6 := by
  unfold skipForm at h
  simp only [Bool.or_eq_false_iff, decide_eq_false_iff_not, Nat.not_lt,
    List.isEmpty_eq_false] at h
  exact ⟨h.1.1, h.1.2, h.2⟩

/-- C2 counterexample: with a substitution rule whose `dec_end` equals its
`con_end`, `deconjugate "a"` returns a non-initial form (its process trace is
nonempty) whose text equals the input. -/
theorem deconjugate_substitution_self_cycle :
    ∃ f ∈ deconjugate [identitySubstRule] 2 (lit "a"),
      f.text = lit "a" ∧ f ≠ initialForm (lit "a") := by decide

/-- C2 (amended): every form returned by `deconjugate` either has a text
different from the input, or is the initial form, or was produced by applying
a substitution rule of the set directly to the initial form (the standard
rule family discards results equal to the original text, but substitution
does not). -/
theorem deconjugate_no_self_cycle (rules : List Rule) (fuel : Nat) (t : Str)
    (f : DeconjugationForm) (hf : f ∈ deconjugate rules fuel t) :
    f.text ≠ t ∨ f = initialForm t ∨
      ∃ r ∈ rules, r.type = lit "substitution" ∧ f ∈ applyRule (initialForm t) r := by
  have main : ∀ g ∈ deconjugate rules fuel t,
      g.original_text = t ∧ (g = initialForm t ∨ g.process ≠ []) ∧
        (g.text ≠ t ∨ g = initialForm t ∨
          ∃ r ∈ rules, r.type = lit "substitution" ∧ g ∈ applyRule (initialForm t) r) := by
    refine deconjugate_invariant rules t fuel _ ?_ ?_
    · exact ⟨rfl, Or.inl rfl, Or.inr (Or.inl rfl)⟩
    · intro form r g hPform hskip hr happ
      obtain ⟨ho, hp, hd⟩ := applyRule_mem form r g happ
      refine ⟨ho.trans hPform.1, Or.inr hp, ?_⟩
      rcases hd with ht | ⟨hsub, hemp⟩
      · refine Or.inl ?_
        rw [← hPform.1]
        exact ht
      · rcases hPform.2.1 with hini | hpne
        · exact Or.inr (Or.inr ⟨r, hr, hsub, hini ▸ happ⟩)
        · exact absurd hemp hpne
  exact (main f hf).2.2

/-- C2 witness: the amended law applied to a concrete run. -/
theorem deconjugate_no_self_cycle_witness :
    (initialForm (lit "a")).text ≠ lit "a" ∨
      initialForm (lit "a") = initialForm (lit "a") ∨
      ∃ r ∈ ([] : List Rule), r.type = lit "substitution" ∧
        initialForm (lit "a") ∈ applyRule (initialForm (lit "a")) r :=
  deconjugate_no_self_cycle [] 1 (lit "a") (initialForm (lit "a")) (by decide)

/-- C3 counterexample: a standard rule with a 12-character `dec_end` applied
to the one-character input "a" puts a form of text length 12 > 1 + 10 into
the returned set — the skip predicate bounds further expansion but not the
returned forms themselves. -/
theorem deconjugate_unbounded_text :
    ∃ f ∈ deconjugate [longStdRule] 2 (lit "a"),
      (lit "a").length + 10 < f.text.length := by decide

/-- C3 (amended): every form returned by `deconjugate` either satisfies the
skip-predicate bounds (len(text) ≤ len(t)+10 and len(tags) ≤ len(t)+6), or
is the result of one rule application to a parent form that satisfies them
— returned forms can exceed the bounds by at most one application. -/
theorem deconjugate_bounded (rules : List Rule) (fuel : Nat) (t : Str)
    (f : DeconjugationForm) (hf : f ∈ deconjugate rules fuel t) :
    (f.text.length ≤ t.length + 10 ∧ f.tags.length ≤ t.length + 6) ∨
      ∃ parent r, r ∈ rules ∧ parent.original_text = t ∧ parent.text ≠ [] ∧
        parent.text.length ≤ t.length + 10 ∧ parent.tags.length ≤ t.length + 6 ∧
        f ∈ applyRule parent r := by
  have main : ∀ g ∈ deconjugate rules fuel t,
      g.original_text = t ∧
        ((g.text.length ≤ t.length + 10 ∧ g.tags.length ≤ t.length + 6) ∨
          ∃ parent r, r ∈ rules ∧ parent.original_text = t ∧ parent.text ≠ [] ∧
            parent.text.length ≤ t.length + 10 ∧ parent.tags.length ≤ t.length + 6 ∧
            g ∈ applyRule parent r) := by
    refine deconjugate_invariant rules t fuel _ ?_ ?_
    · exact ⟨rfl, Or.inl (by simp [initialForm])⟩
    · intro form r g hPform hskip hr happ
      obtain ⟨ho, -, -⟩ := applyRule_mem form r g happ
      obtain ⟨hne, hlen, htags⟩ := skipForm_eq_false form hskip
      refine ⟨ho.trans hPform.1, Or.inr ⟨form, r, hr, hPform.1, hne, ?_, ?_, happ⟩⟩
      · rw [← hPform.1]; exact hlen
      · rw [← hPform.1]; exact htags
  exact (main f hf).2

/-- C3 witness: the amended law applied to a concrete run. -/
theorem deconjugate_bounded_witness :
    ((initialForm (lit "a")).text.length ≤ (lit "a").length + 10 ∧
      (initialForm (lit "a")).tags.length ≤ (lit "a").length + 6) ∨
      ∃ parent r, r ∈ ([] : List Rule) ∧ parent.original_text = lit "a" ∧
        parent.text ≠ [] ∧ parent.text.length ≤ (lit "a").length + 10 ∧
        parent.tags.length ≤ (lit "a").length + 6 ∧
        initialForm (lit "a") ∈ applyRule parent r :=
  deconjugate_bounded [] 1 (lit "a") (initialForm (lit "a")) (by decide)

/-- C4: a form is produced by `_std_rule` exactly as the spec describes:
refusal when detail and tags are both empty; otherwise one try per broadcast
index, succeeding iff the text ends with conEnd and the tags admit conTag,
rewriting the suffix, and discarding results equal to the original text.
(`con_end` is nonempty, as in every real rule; Python raises otherwise.) -/
theorem std_rule_matches_spec (form : DeconjugationForm) (rule : Rule)
    (f : DeconjugationForm) (_hne : rule.con_end ≠ []) :
    f ∈ stdRule form rule ↔ stdRuleSpecAdmits form rule f := by
  by_cases hg : rule.detail = [] ∧ form.tags = []
  · unfold stdRule stdRuleSpecAdmits
    rw [if_pos hg]
    simp only [List.not_mem_nil, false_iff]
    rintro ⟨hor, -⟩
    rcases hor with hd | htg
    · exact hd hg.1
    · exact htg hg.2
  · unfold stdRule stdRuleSpecAdmits
    rw [if_neg hg]
    constructor
    · intro h
      obtain ⟨i, hi, hsome⟩ := List.mem_filterMap.mp h
      rw [stdTryOne_eq_some_iff] at hsome
      exact ⟨not_and_or.mp hg, i, (mem_broadcastIdxs _ _).mp hi, hsome⟩
    · rintro ⟨_, i, hilt, hconds⟩
      exact List.mem_filterMap.mpr ⟨i, (mem_broadcastIdxs _ _).mpr hilt,
        (stdTryOne_eq_some_iff _ _ _ _ _ _ _).mpr hconds⟩

/-- C4 witness: the characterisation at a concrete rule, form and output. -/
theorem std_rule_matches_spec_witness :
    pastStdOut ∈ stdRule (initialForm (lit "食べた")) pastStdRule ↔
      stdRuleSpecAdmits (initialForm (lit "食べた")) pastStdRule pastStdOut :=
  std_rule_matches_spec _ _ _ (by decide)

/- ---------- C7: merge passes and input mutation ---------- -/

lemma getD_mem {α} [Inhabited α] :
    ∀ (l : List α) (k : Nat), k < l.length → l.getD k default ∈ l := by
  intro l
  induction l with
  | nil => intro k h; simp at h
  | cons x xs ih =>
    intro k h
    cases k with
    | zero => simp [List.getD]
    | succ k2 =>
      have he : (x :: xs).getD (k2 + 1) default = xs.getD k2 default := by
        simp [List.getD]
      rw [he]
      exact List.mem_cons_of_mem _ (ih k2 (by simpa using h))

lemma getD_mem_drop_one (ws : List WordInfo) (i : Nat) (hi : 1 ≤ i)
    (hlt : i < ws.length) : ws.getD i default ∈ ws.drop 1 := by
  cases ws with
  | nil => simp at hlt
  | cons w rest =>
    cases i with
    | zero => omega
    | succ k =>
      have he : (w :: rest).getD (k + 1) default = rest.getD k default := by
        simp [List.getD]
      rw [he]
      simp only [List.drop_succ_cons, List.drop_zero]
      exact getD_mem rest k (by simpa using hlt)

lemma ccpStep_append (out : List Nat) (heap : List WordInfo) (i : Nat)
    (hc : ∀ j, out.getLast? = some j →
      ¬ ccpCond (heap.getD i default) (heap.getD j default)) :
    ccpStep (out, heap) i = (out ++ [i], heap) := by
  unfold ccpStep
  cases hl : out.getLast? with
  | none => rfl
  | some j =>
    simp only [hl]
    rw [if_neg (hc j hl)]

lemma ccp_foldl_heap (ws : List WordInfo)
    (h1 : ∀ w ∈ ws.drop 1, ¬ (hasSection w .ConjunctionParticle ∧
      (w.text = lit "て" ∨ w.text = lit "で" ∨ w.text = lit "ちゃ" ∨
        w.text = lit "ば"))) :
    ∀ (idxs : List Nat), (∀ i ∈ idxs, 1 ≤ i ∧ i < ws.length) →
      ∀ out, (idxs.foldl ccpStep (out, ws)).2 = ws := by
  intro idxs
  induction idxs with
  | nil => intro _ out; rfl
  | cons i rest ih =>
    intro hmem out
    rw [List.foldl_cons]
    have hi := hmem i (List.mem_cons_self _ _)
    have hcur := getD_mem_drop_one ws i hi.1 hi.2
    rw [ccpStep_append out ws i (fun j _ hc => h1 _ hcur ⟨hc.1, hc.2.1⟩)]
    exact ih (fun x hx => hmem x (List.mem_cons_of_mem _ hx)) (out ++ [i])

lemma auxStep_append (out : List Nat) (heap : List WordInfo) (i : Nat)
    (hna : (heap.getD i default).part_of_speech ≠ PartOfSpeech.Auxiliary) :
    auxStep (out, heap) i = (out ++ [i], heap) := by
  unfold auxStep
  rw [if_pos hna]

lemma aux_foldl_heap (ws : List WordInfo)
    (h2 : ∀ w ∈ ws.drop 1, w.part_of_speech ≠ PartOfSpeech.Auxiliary) :
    ∀ (idxs : List Nat), (∀ i ∈ idxs, 1 ≤ i ∧ i < ws.length) →
      ∀ out, (idxs.foldl auxStep (out, ws)).2 = ws := by
  intro idxs
  induction idxs with
  | nil => intro _ out; rfl
  | cons i rest ih =>
    intro hmem out
    rw [List.foldl_cons]
    have hi := hmem i (List.mem_cons_self _ _)
    have hcur := getD_mem_drop_one ws i hi.1 hi.2
    rw [auxStep_append out ws i (h2 _ hcur)]
    exact ih (fun x hx => hmem x (List.mem_cons_of_mem _ hx)) (out ++ [i])

/-- C7 counterexample: `combine_conjunctive_particle` does not clone before
mutating — on a Verb followed by the conjunctive particle て it appends て's
text onto the first input record through the shared reference, so the input
records change. -/
theorem merge_pass_mutates_input :
    (combine_conjunctive_particle [verbRecord, teParticleRecord]).2 ≠
      [verbRecord, teParticleRecord] := by decide

/-- C7 (amended): `combine_conjunctive_particle` and `combine_auxiliary`
mutate the matched predecessor record in place instead of cloning; the input
records are left unchanged whenever no follower morpheme can trigger a merge
(no conjunctive-particle て/で/ちゃ/ば follower and no Auxiliary follower),
and a firing merge rewrites an input record, as the counterexample shows.
(The other pipeline passes copy records before mutating.) -/
theorem merge_passes_preserve_input_without_trigger (ws : List WordInfo)
    (h1 : ∀ w ∈ ws.drop 1, ¬ (hasSection w .ConjunctionParticle ∧
      (w.text = lit "て" ∨ w.text = lit "で" ∨ w.text = lit "ちゃ" ∨
        w.text = lit "ば")))
    (h2 : ∀ w ∈ ws.drop 1, w.part_of_speech ≠ PartOfSpeech.Auxiliary) :
    (combine_conjunctive_particle ws).2 = ws ∧ (combine_auxiliary ws).2 = ws := by
  constructor
  · unfold combine_conjunctive_particle
    split_ifs with hlen
    · rfl
    · refine ccp_foldl_heap ws h1 _ ?_ [0]
      intro i hi
      rw [List.mem_range'_1] at hi
      omega
  · unfold combine_auxiliary
    split_ifs with hlen
    · rfl
    · refine aux_foldl_heap ws h2 _ ?_ [0]
      intro i hi
      rw [List.mem_range'_1] at hi
      omega

/-- C7 witness: both passes leave a trigger-free input unchanged. -/
theorem merge_passes_preserve_input_witness :
    (combine_conjunctive_particle [verbRecord, nounRecord]).2 =
      [verbRecord, nounRecord] ∧
    (combine_auxiliary [verbRecord, nounRecord]).2 = [verbRecord, nounRecord] :=
  merge_passes_preserve_input_without_trigger _ (by decide) (by decide)

end JpSegment
